import Mathlib

/-!
Verification of the navigation-tree resolver specification for the
fullstacknotes-site repository.

The repository itself contains only the declarative sidebar configuration
(astro.config.mjs) and the content documents (markdown files with
frontmatter carrying title and sidebar.order).  The resolver that expands
the configuration into the final sidebar is the surrounding site
generator's code and is not part of the repository, so it is modelled
here from the specification.  The configuration and the document set are
embedded verbatim from the repository's files.

Paths are modelled as lists of path segments (strings); a directory
matches a document when the directory's segment list is a segment-wise
prefix of the document's path.
-/

/-- Modelled from the spec: a content document
{ path, title, order?, collapsed? } discovered by the external content
scanner.  The resolver reads path, title and order. -/
structure ContentDocument where
  path : List String
  title : String
  order : Option Int
  collapsed : Option Bool
deriving DecidableEq, Repr

/-- Modelled from the spec: a navigation node.  A configuration node is an
explicit entry { label, target }, a group { label, collapsedByDefault,
children }, or an autogenerate directive { directory }.  Resolved trees
use the same type; entries carry a provenance flag that is true exactly
for entries emitted by expanding an autogenerate directive. -/
inductive Node where
  | entry (label : String) (target : List String) (auto : Bool)
  | group (label : String) (collapsed : Bool) (children : List Node)
  | autogen (directory : List String)

/-- Modelled from the spec: the fatal error taxonomy of the resolver.
Duplicate-label errors carry the index paths (child positions from the
root) of the two offending sibling groups. -/
inductive RError where
  | brokenReference (label : String) (target : List String)
  | duplicateLabel (first second : List Nat)
  | ambiguousClaim (directory : List String)
deriving DecidableEq, Repr

/-- Modelled from the spec: the non-fatal diagnostics of the resolver. -/
inductive Warning where
  | emptyAutogenerate (directory : List String)
deriving DecidableEq, Repr

/-- Strict comparison of characters by code point. -/
def charLt (a b : Char) : Bool := decide (a.toNat < b.toNat)

/-- Strict lexicographic comparison of character lists. -/
def charListLt : List Char → List Char → Bool
  | [], [] => false
  | [], _ :: _ => true
  | _ :: _, [] => false
  | a :: as, b :: bs => if a = b then charListLt as bs else charLt a b

/-- Strict lexicographic comparison of strings by code point. -/
def strLt (a b : String) : Bool := charListLt a.data b.data

/-- Lexicographic comparison of segment paths, comparing segment by
segment with the lexicographic order on strings. -/
def pathLe : List String → List String → Bool
  | [], _ => true
  | _ :: _, [] => false
  | a :: as, b :: bs => if a = b then pathLe as bs else strLt a b

/-- Modelled from the spec: the sort key used inside an autogenerate
expansion.  Primary key: order ascending with missing order after all
present orders; secondary key: path lexicographic order. -/
def docLe (x y : ContentDocument) : Bool :=
  match x.order, y.order with
  | some i, some j => if i = j then pathLe x.path y.path else decide (i < j)
  | some _, none => true
  | none, some _ => false
  | none, none => pathLe x.path y.path

/-- Propositional form of the document comparator. -/
def DocLe (x y : ContentDocument) : Prop := docLe x y = true

instance : DecidableRel DocLe := fun x y => decEq (docLe x y) true

/-- Modelled from the spec: a directive's directory matches a document
when it is a segment-wise path prefix of the document's path. -/
def matchesDir (dir : List String) (d : ContentDocument) : Bool :=
  dir.isPrefixOf d.path

/-- Modelled from the spec: a directive claims a document when its
directory matches the document's path and no strictly more specific
directive occurring anywhere in the configuration also matches it. -/
def claimedBy (dirs : List (List String)) (dir : List String)
    (d : ContentDocument) : Bool :=
  matchesDir dir d &&
    !(dirs.any fun d2 => d2 ≠ dir && dir.isPrefixOf d2 && matchesDir d2 d)

/-- Modelled from the spec: collect the documents claimed by a directive
and sort them by the order/path key. -/
def collectDocs (dirs : List (List String)) (dir : List String)
    (docs : List ContentDocument) : List ContentDocument :=
  List.insertionSort DocLe (docs.filter (claimedBy dirs dir))

/-- Modelled from the spec: expand one autogenerate directive into one
entry per claimed document, labelled by the document title; a directive
matching zero documents yields no entries and a warning. -/
def expandAutogen (dirs : List (List String)) (dir : List String)
    (docs : List ContentDocument) : List Node × List Warning :=
  let cs := collectDocs dirs dir docs
  (cs.map fun d => Node.entry d.title d.path true,
   if cs.isEmpty then [Warning.emptyAutogenerate dir] else [])

mutual

/-- Directories of all autogenerate directives inside a node. -/
def nodeDirs : Node → List (List String)
  | .entry _ _ _ => []
  | .group _ _ cs => itemsDirs cs
  | .autogen dir => [dir]

/-- Directories of all autogenerate directives inside a list of nodes. -/
def itemsDirs : List Node → List (List String)
  | [] => []
  | n :: ns => nodeDirs n ++ itemsDirs ns

end

/-- Label of a node when it is a group. -/
def groupLabel : Node → Option String
  | .group l _ _ => some l
  | _ => none

/-- Index of the first group in the list carrying the given label. -/
def findLabelIdx (l : String) : List Node → Option Nat
  | [] => none
  | n :: ns =>
    if groupLabel n = some l then some 0
    else (findLabelIdx l ns).map (· + 1)

/-- First pair of indices i < j of two sibling groups sharing a label. -/
def firstDup : List Node → Option (Nat × Nat)
  | [] => none
  | n :: ns =>
    match groupLabel n with
    | some l =>
      match findLabelIdx l ns with
      | some j => some (0, j + 1)
      | none => (firstDup ns).map fun p => (p.1 + 1, p.2 + 1)
    | none => (firstDup ns).map fun p => (p.1 + 1, p.2 + 1)

mutual

/-- Modelled from the spec: resolve one configuration node.  dirs is the
list of every directive directory in the whole configuration, docs the
discovered document set, path the index path of the parent, i the node's
index among its siblings.  An explicit entry whose target matches no
document is a fatal broken reference; a group first rejects duplicate
sibling group labels and then resolves its children in order; a directive
whose directory occurs at least twice among the configuration's
directives and claims at least one document is a fatal ambiguous claim,
otherwise it expands in place. -/
def resolveNode (dirs : List (List String)) (docs : List ContentDocument)
    (path : List Nat) (i : Nat) :
    Node → Except RError (List Node × List Warning)
  | .entry l t _ =>
    if docs.any fun d => d.path = t then .ok ([.entry l t false], [])
    else .error (.brokenReference l t)
  | .group l c cs =>
    match firstDup cs with
    | some p =>
      .error (.duplicateLabel (path ++ [i] ++ [p.1]) (path ++ [i] ++ [p.2]))
    | none =>
      match resolveItems dirs docs (path ++ [i]) 0 cs with
      | .error e => .error e
      | .ok (rs, ws) => .ok ([.group l c rs], ws)
  | .autogen dir =>
    if 2 ≤ dirs.countP (fun d2 => d2 = dir) && docs.any (claimedBy dirs dir) then
      .error (.ambiguousClaim dir)
    else
      .ok (expandAutogen dirs dir docs)

/-- Modelled from the spec: resolve a sibling list in declaration order,
splicing each node's resolution at the position the node occupied and
aborting at the first fatal error. -/
def resolveItems (dirs : List (List String)) (docs : List ContentDocument)
    (path : List Nat) (i : Nat) :
    List Node → Except RError (List Node × List Warning)
  | [] => .ok ([], [])
  | n :: ns =>
    match resolveNode dirs docs path i n with
    | .error e => .error e
    | .ok (r, w) =>
      match resolveItems dirs docs path (i + 1) ns with
      | .error e => .error e
      | .ok (rs, ws) => .ok (r ++ rs, w ++ ws)

end

/-- Modelled from the spec: resolve(config, documents).  Checks duplicate
labels among the top-level sections, then resolves them in order. -/
def resolve (config : List Node) (docs : List ContentDocument) :
    Except RError (List Node × List Warning) :=
  match firstDup config with
  | some p => .error (.duplicateLabel [p.1] [p.2])
  | none => resolveItems (itemsDirs config) docs [] 0 config

/-- The sidebar configuration of astro.config.mjs, embedded verbatim:
four top-level sections, each group carrying an autogenerate directive as
its single child. -/
def siteConfig : List Node :=
  [ .group "JavaScript" false
      [ .group "Notes" true [.autogen ["javascript", "notes"]],
        .group "Gotchas" true [.autogen ["javascript", "gotchas"]],
        .group "Coding Interviews" true
          [.autogen ["javascript", "coding-interviews"]] ],
    .group "TypeScript" false
      [ .group "Notes" true [.autogen ["typescript", "notes"]],
        .group "Coding Interviews" true
          [.autogen ["typescript", "coding-interviews"]] ],
    .group "Node.js" false
      [ .group "Notes" true [.autogen ["nodejs", "notes"]],
        .group "Coding Interviews" true
          [.autogen ["nodejs", "coding-interviews"]] ],
    .group "Beyond JavaScript" true [.autogen ["beyond-javascript"]] ]

/-- The eight autogenerate directories of the configuration, in
declaration order. -/
def siteDirs : List (List String) := itemsDirs siteConfig

example : siteDirs =
    [ ["javascript", "notes"], ["javascript", "gotchas"],
      ["javascript", "coding-interviews"], ["typescript", "notes"],
      ["typescript", "coding-interviews"], ["nodejs", "notes"],
      ["nodejs", "coding-interviews"], ["beyond-javascript"] ] := by
  decide

/-- The content documents of src/content/docs whose file paths are
recorded in the repository, embedded verbatim from each file's
frontmatter: path segments, title, sidebar.order when declared.  The
repository carries further content documents whose file paths are not
recorded; the two of them whose directories are pinned down by the
configuration are embedded separately below as gotchasDoc and
tsHandbookDoc, so facts about which directives match zero documents of
the whole repository must not be read off this list alone. -/
def siteDocs : List ContentDocument :=
  [ ⟨["beyond-javascript", "cloud-native-design.md"],
      "Cloud Native Design (Serverless and S3)", some 9, none⟩,
    ⟨["beyond-javascript", "docker-for-javascript-developers.md"],
      "Docker for JavaScript Developers", some 1, none⟩,
    ⟨["beyond-javascript", "graphql-deep-dive.md"],
      "GraphQL Deep Dive (Schema Design)", some 5, none⟩,
    ⟨["beyond-javascript", "message-queues-and-event-driven-design.md"],
      "Message Queues and Event-Driven Design", some 7, none⟩,
    ⟨["beyond-javascript", "the-senior-architects-review.md"],
      "The Senior Architect’s Review", some 10, none⟩,
    ⟨["javascript", "coding-interviews",
        "javascript-coding-interview-handbook.md"],
      "JavaScript Coding Interview Handbook", none, none⟩,
    ⟨["javascript", "notes", "arrays-and-the-iteration-protocols.md"],
      "Arrays and The Iteration Protocols", some 7, none⟩,
    ⟨["javascript", "notes", "asynchronous-javaScript.md"],
      "Asynchronous JavaScript", some 7, none⟩,
    ⟨["javascript", "notes", "data-structures.md"],
      "Data Structures and Manipulation", some 4, none⟩,
    ⟨["javascript", "notes", "dom-manipulation-and-performance.md"],
      "DOM Manipulation and Performance", some 11, none⟩,
    ⟨["javascript", "notes", "event-architecture-and-delegation.md"],
      "Event Architecture and Delegation", some 12, none⟩,
    ⟨["javascript", "notes", "modules-esm-and-bundling.md"],
      "Modules (ESM) and Bundling", some 18, none⟩,
    ⟨["javascript", "notes",
        "objects-references-and-the-this-keyword.md"],
      "Objects, References, and The `this` Keyword", some 6, none⟩,
    ⟨["javascript", "notes", "operators-logic-control-flow.md"],
      "Operators, Logic, and Control Flow", some 3, none⟩,
    ⟨["javascript", "notes", "performance-and-memory-management.md"],
      "Performance and Memory Management", some 20, none⟩,
    ⟨["javascript", "notes", "promises-fetch-and-chaining.md"],
      "Promises, Fetch and Chaining", some 16, none⟩,
    ⟨["javascript", "notes", "prototypes-and-the-prototype-chain.md"],
      "Prototypes and The Prototype Chain", some 8, none⟩,
    ⟨["javascript", "notes", "the-dom.md"],
      "The DOM (Document Object Model)", some 6, none⟩,
    ⟨["javascript", "notes",
        "the-javascript-ecosystem-and-variables.md"],
      "The JavaScript Ecosystem and Variables", some 1, none⟩,
    ⟨["javascript", "notes", "under-the-hood-and-tooling.md"],
      "\"Under the Hood\" and Tooling", some 8, none⟩,
    ⟨["nodejs", "coding-interviews",
        "nodejs-coding-interview-handbook.md"],
      "Node.js Interview Handbook", none, none⟩,
    ⟨["nodejs", "coding-interviews", "nodejs-senior-scenarios.md"],
      "Node.js Senior Scenarios: Solving Real-World Engineering Crises",
      none, none⟩,
    ⟨["nodejs", "notes", "asynchronous-patterns.md"],
      "Asynchronous Patterns (Deep Dive)", some 3, none⟩,
    ⟨["nodejs", "notes", "authentication-and-authorization.md"],
      "Authentication and Authorization", some 15, none⟩,
    ⟨["nodejs", "notes", "buffers-and-streams.md"],
      "Buffers and Streams (Handling Binary Data)", some 6, none⟩,
    ⟨["nodejs", "notes", "databases-and-orms.md"],
      "Databases and ORMs", some 13, none⟩,
    ⟨["nodejs", "notes", "deployment-and-devops.md"],
      "Deployment and DevOps", some 20, none⟩,
    ⟨["nodejs", "notes", "file-system-and-os-mastery.md"],
      "File System and OS Mastery", some 7, none⟩,
    ⟨["nodejs", "notes", "http-internals.md"],
      "HTTP Internals", some 9, none⟩,
    ⟨["nodejs", "notes", "networking-core.md"],
      "Networking Core (TCP and UDP)", some 8, none⟩,
    ⟨["nodejs", "notes", "nodejs-internals.md"],
      "Node.js Internals: V8, Libuv and The Event Loop", some 1, none⟩,
    ⟨["nodejs", "notes", "scaling-and-concurrency.md"],
      "Scaling and Concurrency", some 17, none⟩,
    ⟨["nodejs", "notes", "testing-methodologies.md"],
      "Testing Methodologies", some 18, none⟩,
    ⟨["typescript", "notes", "react-with-typescript.md"],
      "React with TypeScript", some 4, none⟩ ]

example :
    resolveNode [] [] [] 0 (Node.group "A" true []) =
      Except.ok ([Node.group "A" true []], []) := rfl

example :
    resolve [Node.group "A" true [Node.autogen ["x"]]] [] =
      Except.ok ([Node.group "A" true []],
        [Warning.emptyAutogenerate ["x"]]) := rfl

example :
    (collectDocs siteDirs ["javascript", "notes"] siteDocs).map
      ContentDocument.title =
    [ "The JavaScript Ecosystem and Variables",
      "Operators, Logic, and Control Flow",
      "Data Structures and Manipulation",
      "Objects, References, and The `this` Keyword",
      "The DOM (Document Object Model)",
      "Arrays and The Iteration Protocols",
      "Asynchronous JavaScript",
      "Prototypes and The Prototype Chain",
      "\"Under the Hood\" and Tooling",
      "DOM Manipulation and Performance",
      "Event Architecture and Delegation",
      "Promises, Fetch and Chaining",
      "Modules (ESM) and Bundling",
      "Performance and Memory Management" ] := by decide

theorem char_eq_of_toNat_eq {a b : Char} (h : a.toNat = b.toNat) : a = b := by
  refine Char.ext ?_
  unfold Char.toNat at h
  unfold UInt32.toNat at h
  exact congrArg UInt32.mk (BitVec.toNat_injective h)

theorem charListLt_trans : ∀ (a b c : List Char),
    charListLt a b = true → charListLt b c = true → charListLt a c = true
  | [], [], _, h1, _ => absurd h1 (by simp [charListLt])
  | [], _ :: _, [], _, h2 => absurd h2 (by simp [charListLt])
  | [], _ :: _, _ :: _, _, _ => by simp [charListLt]
  | _ :: _, [], _, h1, _ => absurd h1 (by simp [charListLt])
  | _ :: _, _ :: _, [], _, h2 => absurd h2 (by simp [charListLt])
  | x :: xs, y :: ys, z :: zs, h1, h2 => by
    by_cases hxy : x = y
    · subst hxy
      by_cases hyz : x = z
      · subst hyz
        simp only [charListLt, if_pos rfl] at h1 h2 ⊢
        exact charListLt_trans xs ys zs h1 h2
      · simp only [charListLt, if_neg hyz] at h2 ⊢
        exact h2
    · by_cases hyz : y = z
      · subst hyz
        simp only [charListLt, if_neg hxy] at h1 ⊢
        exact h1
      · simp only [charListLt, if_neg hxy] at h1
        simp only [charListLt, if_neg hyz] at h2
        simp only [charLt, decide_eq_true_eq] at h1 h2
        have hxz : x ≠ z := by
          intro he
          rw [he] at h1
          omega
        simp only [charListLt, if_neg hxz, charLt, decide_eq_true_eq]
        omega

theorem charListLt_asymm : ∀ (a b : List Char),
    charListLt a b = true → charListLt b a = true → False
  | [], [], h1, _ => by simp [charListLt] at h1
  | [], _ :: _, _, h2 => by simp [charListLt] at h2
  | _ :: _, [], h1, _ => by simp [charListLt] at h1
  | x :: xs, y :: ys, h1, h2 => by
    by_cases hxy : x = y
    · subst hxy
      simp only [charListLt, if_pos rfl] at h1 h2
      exact charListLt_asymm xs ys h1 h2
    · simp only [charListLt, if_neg hxy] at h1
      simp only [charListLt, if_neg (Ne.symm hxy)] at h2
      simp only [charLt, decide_eq_true_eq] at h1 h2
      omega

theorem charListLt_total : ∀ (a b : List Char), a ≠ b →
    charListLt a b = true ∨ charListLt b a = true
  | [], [], h => absurd rfl h
  | [], _ :: _, _ => by simp [charListLt]
  | _ :: _, [], _ => by simp [charListLt]
  | x :: xs, y :: ys, h => by
    by_cases hxy : x = y
    · subst hxy
      have hxs : xs ≠ ys := by
        intro he
        exact h (by rw [he])
      simpa only [charListLt, if_pos rfl] using charListLt_total xs ys hxs
    · have hn : x.toNat ≠ y.toNat := fun he => hxy (char_eq_of_toNat_eq he)
      simp only [charListLt, if_neg hxy, if_neg (Ne.symm hxy), charLt,
        decide_eq_true_eq]
      omega

theorem strLt_trans {a b c : String} (h1 : strLt a b = true)
    (h2 : strLt b c = true) : strLt a c = true :=
  charListLt_trans a.data b.data c.data h1 h2

theorem strLt_asymm {a b : String} (h1 : strLt a b = true)
    (h2 : strLt b a = true) : False :=
  charListLt_asymm a.data b.data h1 h2

theorem strLt_total {a b : String} (h : a ≠ b) :
    strLt a b = true ∨ strLt b a = true :=
  charListLt_total a.data b.data fun he => h (String.ext he)

theorem pathLe_refl : ∀ (p : List String), pathLe p p = true
  | [] => rfl
  | a :: as => by simp only [pathLe, if_pos rfl]; exact pathLe_refl as

theorem pathLe_total : ∀ (p q : List String),
    pathLe p q = true ∨ pathLe q p = true
  | [], _ => Or.inl rfl
  | _ :: _, [] => Or.inr rfl
  | a :: as, b :: bs => by
    by_cases hab : a = b
    · subst hab
      simpa only [pathLe, if_pos rfl] using pathLe_total as bs
    · simp only [pathLe, if_neg hab, if_neg (Ne.symm hab)]
      exact strLt_total hab

theorem pathLe_trans : ∀ (p q r : List String), pathLe p q = true →
    pathLe q r = true → pathLe p r = true
  | [], _, _, _, _ => rfl
  | _ :: _, [], _, h1, _ => by simp [pathLe] at h1
  | _ :: _, _ :: _, [], _, h2 => by simp [pathLe] at h2
  | a :: as, b :: bs, c :: cs, h1, h2 => by
    by_cases hab : a = b
    · subst hab
      by_cases hbc : a = c
      · subst hbc
        simp only [pathLe, if_pos rfl] at h1 h2 ⊢
        exact pathLe_trans as bs cs h1 h2
      · simp only [pathLe, if_neg hbc] at h2 ⊢
        exact h2
    · by_cases hbc : b = c
      · subst hbc
        simp only [pathLe, if_neg hab] at h1 ⊢
        exact h1
      · simp only [pathLe, if_neg hab] at h1
        simp only [pathLe, if_neg hbc] at h2
        have hac : a ≠ c := by
          intro he
          subst he
          exact strLt_asymm h1 h2
        simp only [pathLe, if_neg hac]
        exact strLt_trans h1 h2

theorem pathLe_antisymm : ∀ (p q : List String), pathLe p q = true →
    pathLe q p = true → p = q
  | [], [], _, _ => rfl
  | [], _ :: _, _, h2 => by simp [pathLe] at h2
  | _ :: _, [], h1, _ => by simp [pathLe] at h1
  | a :: as, b :: bs, h1, h2 => by
    by_cases hab : a = b
    · subst hab
      simp only [pathLe, if_pos rfl] at h1 h2
      rw [pathLe_antisymm as bs h1 h2]
    · simp only [pathLe, if_neg hab] at h1
      simp only [pathLe, if_neg (Ne.symm hab)] at h2
      exact (strLt_asymm h1 h2).elim

theorem docLe_total (x y : ContentDocument) : DocLe x y ∨ DocLe y x := by
  unfold DocLe docLe
  rcases hx : x.order with _ | i <;> rcases hy : y.order with _ | j
  · exact pathLe_total x.path y.path
  · exact Or.inr rfl
  · exact Or.inl rfl
  · by_cases hij : i = j
    · subst hij
      simpa only [if_pos rfl] using pathLe_total x.path y.path
    · simp only [if_neg hij, if_neg (Ne.symm hij), decide_eq_true_eq]
      omega

theorem docLe_trans {x y z : ContentDocument} (h1 : DocLe x y)
    (h2 : DocLe y z) : DocLe x z := by
  unfold DocLe docLe at h1 h2 ⊢
  rcases hx : x.order with _ | i <;> rcases hy : y.order with _ | j <;>
    rcases hz : z.order with _ | k <;>
    simp only [hx, hy, hz] at h1 h2 ⊢
  all_goals try exact (Bool.false_ne_true h1).elim
  all_goals try exact (Bool.false_ne_true h2).elim
  · exact pathLe_trans _ _ _ h1 h2
  · by_cases hij : i = j
    · subst hij
      rw [if_pos rfl] at h1
      by_cases hik : i = k
      · subst hik
        rw [if_pos rfl] at h2 ⊢
        exact pathLe_trans _ _ _ h1 h2
      · rw [if_neg hik] at h2 ⊢
        exact h2
    · rw [if_neg hij] at h1
      simp only [decide_eq_true_eq] at h1
      by_cases hjk : j = k
      · have hik : i ≠ k := fun he => hij (he.trans hjk.symm)
        rw [if_neg hik]
        simp only [decide_eq_true_eq]
        omega
      · rw [if_neg hjk] at h2
        simp only [decide_eq_true_eq] at h2
        have hik : i ≠ k := by omega
        rw [if_neg hik]
        simp only [decide_eq_true_eq]
        omega

theorem docLe_antisymm_path {x y : ContentDocument} (h1 : DocLe x y)
    (h2 : DocLe y x) : x.path = y.path := by
  unfold DocLe docLe at h1 h2
  rcases hx : x.order with _ | i <;> rcases hy : y.order with _ | j <;>
    simp only [hx, hy] at h1 h2
  all_goals try exact (Bool.false_ne_true h1).elim
  all_goals try exact (Bool.false_ne_true h2).elim
  · exact pathLe_antisymm _ _ h1 h2
  · by_cases hij : i = j
    · subst hij
      rw [if_pos rfl] at h1 h2
      exact pathLe_antisymm _ _ h1 h2
    · rw [if_neg hij] at h1
      rw [if_neg (Ne.symm hij)] at h2
      simp only [decide_eq_true_eq] at h1 h2
      omega

instance : IsTotal ContentDocument DocLe := ⟨docLe_total⟩

instance : IsTrans ContentDocument DocLe := ⟨fun _ _ _ => docLe_trans⟩

theorem collectDocs_sorted (dirs : List (List String)) (dir : List String)
    (docs : List ContentDocument) :
    List.Sorted DocLe (collectDocs dirs dir docs) :=
  List.sorted_insertionSort DocLe _

theorem collectDocs_perm (dirs : List (List String)) (dir : List String)
    (docs : List ContentDocument) :
    (collectDocs dirs dir docs).Perm (docs.filter (claimedBy dirs dir)) :=
  List.perm_insertionSort DocLe _

theorem perm_any {α : Type} {l₁ l₂ : List α} (hp : l₁.Perm l₂)
    (f : α → Bool) : l₁.any f = l₂.any f := by
  cases h : l₂.any f
  · rw [List.any_eq_false] at h ⊢
    intro a ha
    exact h a (hp.mem_iff.mp ha)
  · rw [List.any_eq_true] at h ⊢
    obtain ⟨a, ha, hfa⟩ := h
    exact ⟨a, hp.mem_iff.mpr ha, hfa⟩

theorem sorted_perm_nodup_eq {l₁ l₂ : List ContentDocument}
    (hp : l₁.Perm l₂) (hs₁ : l₁.Pairwise DocLe) (hs₂ : l₂.Pairwise DocLe)
    (hn : (l₁.map ContentDocument.path).Nodup) : l₁ = l₂ := by
  induction l₁ generalizing l₂ with
  | nil => exact (hp.symm.eq_nil).symm
  | cons a t ih =>
    cases l₂ with
    | nil => exact absurd hp.eq_nil (by simp)
    | cons b t₂ =>
      rw [List.map_cons, List.nodup_cons] at hn
      have hab : a = b := by
        by_contra hne
        have hbmem : b ∈ a :: t := hp.mem_iff.mpr (List.mem_cons_self b t₂)
        have hamem : a ∈ b :: t₂ := hp.mem_iff.mp (List.mem_cons_self a t)
        have hbt : b ∈ t := by
          rcases List.mem_cons.mp hbmem with h | h
          · exact absurd h.symm hne
          · exact h
        have hat2 : a ∈ t₂ := by
          rcases List.mem_cons.mp hamem with h | h
          · exact absurd h hne
          · exact h
        have h1 : DocLe a b := (List.pairwise_cons.mp hs₁).1 b hbt
        have h2 : DocLe b a := (List.pairwise_cons.mp hs₂).1 a hat2
        have hpath : a.path = b.path := docLe_antisymm_path h1 h2
        exact hn.1 (hpath ▸ List.mem_map_of_mem ContentDocument.path hbt)
      subst hab
      rw [ih hp.cons_inv (List.pairwise_cons.mp hs₁).2
        (List.pairwise_cons.mp hs₂).2 hn.2]

theorem collectDocs_perm_inputs (dirs : List (List String))
    (dir : List String) {docs₁ docs₂ : List ContentDocument}
    (hp : docs₁.Perm docs₂)
    (hn : (docs₁.map ContentDocument.path).Nodup) :
    collectDocs dirs dir docs₁ = collectDocs dirs dir docs₂ := by
  have hfil : ((docs₁.filter (claimedBy dirs dir)).map
      ContentDocument.path).Nodup :=
    List.Nodup.sublist
      (List.Sublist.map ContentDocument.path (List.filter_sublist docs₁)) hn
  refine sorted_perm_nodup_eq ?_ (collectDocs_sorted dirs dir docs₁)
    (collectDocs_sorted dirs dir docs₂) ?_
  · exact (collectDocs_perm dirs dir docs₁).trans
      ((hp.filter _).trans (collectDocs_perm dirs dir docs₂).symm)
  · exact (((collectDocs_perm dirs dir docs₁).map
      ContentDocument.path).nodup_iff).mpr hfil

theorem expandAutogen_perm_inputs (dirs : List (List String))
    (dir : List String) {docs₁ docs₂ : List ContentDocument}
    (hp : docs₁.Perm docs₂)
    (hn : (docs₁.map ContentDocument.path).Nodup) :
    expandAutogen dirs dir docs₁ = expandAutogen dirs dir docs₂ := by
  unfold expandAutogen
  rw [collectDocs_perm_inputs dirs dir hp hn]

mutual

theorem resolveNode_perm (dirs : List (List String))
    {docs₁ docs₂ : List ContentDocument} (hp : docs₁.Perm docs₂)
    (hn : (docs₁.map ContentDocument.path).Nodup) (path : List Nat)
    (i : Nat) : ∀ n, resolveNode dirs docs₁ path i n =
      resolveNode dirs docs₂ path i n
  | .entry l t a => by
    simp only [resolveNode]
    rw [perm_any hp (fun d => decide (d.path = t))]
  | .group l c cs => by
    simp only [resolveNode]
    rw [resolveItems_perm dirs hp hn (path ++ [i]) 0 cs]
  | .autogen dir => by
    simp only [resolveNode]
    rw [perm_any hp (claimedBy dirs dir),
      expandAutogen_perm_inputs dirs dir hp hn]

theorem resolveItems_perm (dirs : List (List String))
    {docs₁ docs₂ : List ContentDocument} (hp : docs₁.Perm docs₂)
    (hn : (docs₁.map ContentDocument.path).Nodup) (path : List Nat)
    (i : Nat) : ∀ ns, resolveItems dirs docs₁ path i ns =
      resolveItems dirs docs₂ path i ns
  | [] => rfl
  | n :: ns => by
    simp only [resolveItems]
    rw [resolveNode_perm dirs hp hn path i n,
      resolveItems_perm dirs hp hn path (i + 1) ns]

end

theorem resolve_perm (config : List Node)
    {docs₁ docs₂ : List ContentDocument} (hp : docs₁.Perm docs₂)
    (hn : (docs₁.map ContentDocument.path).Nodup) :
    resolve config docs₁ = resolve config docs₂ := by
  unfold resolve
  cases firstDup config
  · simp only
    exact resolveItems_perm (itemsDirs config) hp hn [] 0 config
  · rfl

mutual

/-- Relation between a configuration node and the slice of resolved
nodes it produces on success: an explicit entry yields exactly the
corresponding single entry, a group yields a single group with the same
label and collapsed flag, and an autogenerate directive yields exactly
its expansion, spliced in place. -/
inductive NodeRes (dirs : List (List String)) (docs : List ContentDocument) :
    Node → List Node → Prop
  | entry (l : String) (t : List String) (a : Bool) :
      NodeRes dirs docs (.entry l t a) [.entry l t false]
  | group (l : String) (c : Bool) (cs rs : List Node) :
      ItemsRes dirs docs cs rs →
      NodeRes dirs docs (.group l c cs) [.group l c rs]
  | autogen (dir : List String) :
      NodeRes dirs docs (.autogen dir) (expandAutogen dirs dir docs).1

/-- Relation between a sibling list of the configuration and the resolved
sibling list: each node's slice appears at the position the node occupied,
in declaration order. -/
inductive ItemsRes (dirs : List (List String))
    (docs : List ContentDocument) : List Node → List Node → Prop
  | nil : ItemsRes dirs docs [] []
  | cons (n : Node) (r : List Node) (ns rs : List Node) :
      NodeRes dirs docs n r → ItemsRes dirs docs ns rs →
      ItemsRes dirs docs (n :: ns) (r ++ rs)

end

mutual

theorem resolveNode_nodeRes (dirs : List (List String))
    (docs : List ContentDocument) (path : List Nat) (i : Nat) :
    ∀ n r w, resolveNode dirs docs path i n = .ok (r, w) →
      NodeRes dirs docs n r
  | .entry l t a, r, w, h => by
    simp only [resolveNode] at h
    split at h
    · cases h
      exact NodeRes.entry l t a
    · cases h
  | .group l c cs, r, w, h => by
    simp only [resolveNode] at h
    cases hdup : firstDup cs with
    | some p => rw [hdup] at h; cases h
    | none =>
      rw [hdup] at h
      cases hres : resolveItems dirs docs (path ++ [i]) 0 cs with
      | error e => rw [hres] at h; cases h
      | ok pr =>
        obtain ⟨rs, ws2⟩ := pr
        rw [hres] at h
        cases h
        exact NodeRes.group l c cs rs
          (resolveItems_itemsRes dirs docs (path ++ [i]) 0 cs rs _ hres)
  | .autogen dir, r, w, h => by
    simp only [resolveNode] at h
    split at h
    · cases h
    · have hrw : expandAutogen dirs dir docs = (r, w) := by
        injection h
      have h1 : r = (expandAutogen dirs dir docs).1 := by rw [hrw]
      rw [h1]
      exact NodeRes.autogen dir

theorem resolveItems_itemsRes (dirs : List (List String))
    (docs : List ContentDocument) (path : List Nat) (i : Nat) :
    ∀ ns rs ws, resolveItems dirs docs path i ns = .ok (rs, ws) →
      ItemsRes dirs docs ns rs
  | [], rs, ws, h => by
    simp only [resolveItems] at h
    cases h
    exact ItemsRes.nil
  | n :: ns, rs, ws, h => by
    simp only [resolveItems] at h
    cases hn : resolveNode dirs docs path i n with
    | error e => rw [hn] at h; cases h
    | ok pr =>
      obtain ⟨r, w⟩ := pr
      rw [hn] at h
      cases hns : resolveItems dirs docs path (i + 1) ns with
      | error e => rw [hns] at h; cases h
      | ok pr2 =>
        obtain ⟨rs2, ws2⟩ := pr2
        rw [hns] at h
        cases h
        exact ItemsRes.cons n r ns rs2
          (resolveNode_nodeRes dirs docs path i n r _ hn)
          (resolveItems_itemsRes dirs docs path (i + 1) ns rs2 _ hns)

end

theorem resolve_itemsRes (config : List Node)
    (docs : List ContentDocument) (res : List Node) (ws : List Warning)
    (h : resolve config docs = .ok (res, ws)) :
    ItemsRes (itemsDirs config) docs config res := by
  unfold resolve at h
  split at h
  · cases h
  · exact resolveItems_itemsRes (itemsDirs config) docs [] 0 config res ws h

mutual

/-- A resolved node is fully expanded: it is not an autogenerate
directive and contains none below it. -/
def nodeNoAuto : Node → Bool
  | .entry _ _ _ => true
  | .group _ _ cs => itemsNoAuto cs
  | .autogen _ => false

/-- A resolved forest is fully expanded. -/
def itemsNoAuto : List Node → Bool
  | [] => true
  | n :: ns => nodeNoAuto n && itemsNoAuto ns

end

mutual

/-- Every entry in the node refers to a document of the set, and the node
is fully expanded. -/
def nodeOk (docs : List ContentDocument) : Node → Bool
  | .entry _ t _ => docs.any fun d => d.path = t
  | .group _ _ cs => itemsOk docs cs
  | .autogen _ => false

/-- Every entry in the forest refers to a document of the set, and the
forest is fully expanded. -/
def itemsOk (docs : List ContentDocument) : List Node → Bool
  | [] => true
  | n :: ns => nodeOk docs n && itemsOk docs ns

end

theorem itemsOk_append (docs : List ContentDocument) :
    ∀ (r rs : List Node), itemsOk docs (r ++ rs) =
      (itemsOk docs r && itemsOk docs rs)
  | [], rs => rfl
  | n :: r, rs => by
    simp only [List.cons_append, itemsOk, List.append_eq,
      itemsOk_append docs r rs, Bool.and_assoc]

theorem itemsNoAuto_append :
    ∀ (r rs : List Node), itemsNoAuto (r ++ rs) =
      (itemsNoAuto r && itemsNoAuto rs)
  | [], rs => rfl
  | n :: r, rs => by
    simp only [List.cons_append, itemsNoAuto, List.append_eq,
      itemsNoAuto_append r rs, Bool.and_assoc]

theorem itemsOk_entries (docs : List ContentDocument) :
    ∀ (l : List ContentDocument), (∀ d ∈ l, d ∈ docs) →
      itemsOk docs (l.map fun d => Node.entry d.title d.path true) = true
  | [], _ => rfl
  | d :: l, h => by
    simp only [List.map_cons, itemsOk, Bool.and_eq_true]
    constructor
    · simp only [nodeOk, List.any_eq_true]
      exact ⟨d, h d (List.mem_cons_self d l), by simp⟩
    · exact itemsOk_entries docs l fun x hx => h x (List.mem_cons_of_mem d hx)

theorem collectDocs_mem {dirs : List (List String)} {dir : List String}
    {docs : List ContentDocument} {d : ContentDocument}
    (h : d ∈ collectDocs dirs dir docs) : d ∈ docs :=
  List.mem_of_mem_filter ((collectDocs_perm dirs dir docs).mem_iff.mp h)

mutual

theorem resolveNode_itemsOk (dirs : List (List String))
    (docs : List ContentDocument) (path : List Nat) (i : Nat) :
    ∀ n r w, resolveNode dirs docs path i n = .ok (r, w) →
      itemsOk docs r = true
  | .entry l t a, r, w, h => by
    simp only [resolveNode] at h
    cases hany : docs.any fun d => decide (d.path = t) with
    | false =>
      rw [if_neg (by simp [hany])] at h
      cases h
    | true =>
      rw [if_pos (by simp [hany])] at h
      cases h
      simp [itemsOk, nodeOk, hany]
  | .group l c cs, r, w, h => by
    simp only [resolveNode] at h
    cases hdup : firstDup cs with
    | some p => rw [hdup] at h; cases h
    | none =>
      rw [hdup] at h
      cases hres : resolveItems dirs docs (path ++ [i]) 0 cs with
      | error e => rw [hres] at h; cases h
      | ok pr =>
        obtain ⟨rs, ws2⟩ := pr
        rw [hres] at h
        cases h
        simp only [itemsOk, nodeOk, Bool.and_true]
        exact resolveItems_itemsOk dirs docs (path ++ [i]) 0 cs rs _ hres
  | .autogen dir, r, w, h => by
    simp only [resolveNode] at h
    split at h
    · cases h
    · have hrw : expandAutogen dirs dir docs = (r, w) := by
        injection h
      have h1 : r = (expandAutogen dirs dir docs).1 := by rw [hrw]
      rw [h1]
      exact itemsOk_entries docs (collectDocs dirs dir docs)
        fun d hd => collectDocs_mem hd

theorem resolveItems_itemsOk (dirs : List (List String))
    (docs : List ContentDocument) (path : List Nat) (i : Nat) :
    ∀ ns rs ws, resolveItems dirs docs path i ns = .ok (rs, ws) →
      itemsOk docs rs = true
  | [], rs, ws, h => by
    simp only [resolveItems] at h
    cases h
    rfl
  | n :: ns, rs, ws, h => by
    simp only [resolveItems] at h
    cases hn : resolveNode dirs docs path i n with
    | error e => rw [hn] at h; cases h
    | ok pr =>
      obtain ⟨r, w⟩ := pr
      rw [hn] at h
      cases hns : resolveItems dirs docs path (i + 1) ns with
      | error e => rw [hns] at h; cases h
      | ok pr2 =>
        obtain ⟨rs2, ws2⟩ := pr2
        rw [hns] at h
        cases h
        rw [itemsOk_append, Bool.and_eq_true]
        exact ⟨resolveNode_itemsOk dirs docs path i n r _ hn,
          resolveItems_itemsOk dirs docs path (i + 1) ns rs2 _ hns⟩

end

mutual

theorem nodeOk_noAuto : ∀ n, ∀ docs, nodeOk docs n = true →
    nodeNoAuto n = true
  | .entry _ _ _, _, _ => rfl
  | .group l c cs, docs, h => by
    simp only [nodeOk] at h
    simp only [nodeNoAuto]
    exact itemsOk_noAuto cs docs h
  | .autogen _, _, h => by
    simp only [nodeOk] at h
    cases h

theorem itemsOk_noAuto : ∀ ns, ∀ docs, itemsOk docs ns = true →
    itemsNoAuto ns = true
  | [], _, _ => rfl
  | n :: ns, docs, h => by
    simp only [itemsOk, Bool.and_eq_true] at h
    simp only [itemsNoAuto, Bool.and_eq_true]
    exact ⟨nodeOk_noAuto n docs h.1, itemsOk_noAuto ns docs h.2⟩

end

mutual

/-- The node contains, possibly nested inside groups, an explicit entry
whose target matches no document of the set. -/
def nodeDangling (docs : List ContentDocument) : Node → Bool
  | .entry _ t _ => !(docs.any fun d => d.path = t)
  | .group _ _ cs => itemsDangling docs cs
  | .autogen _ => false

/-- Some node of the list contains a dangling explicit entry. -/
def itemsDangling (docs : List ContentDocument) : List Node → Bool
  | [] => false
  | n :: ns => nodeDangling docs n || itemsDangling docs ns

end

mutual

theorem resolveNode_dangling (dirs : List (List String))
    (docs : List ContentDocument) (path : List Nat) (i : Nat) :
    ∀ n, nodeDangling docs n = true →
      ∃ e, resolveNode dirs docs path i n = .error e
  | .entry l t a, h => by
    simp only [nodeDangling, Bool.not_eq_eq_eq_not, Bool.not_true] at h
    refine ⟨.brokenReference l t, ?_⟩
    simp only [resolveNode]
    rw [if_neg (by simp [h])]
  | .group l c cs, h => by
    simp only [nodeDangling] at h
    cases hdup : firstDup cs with
    | some p =>
      exact ⟨_, by simp only [resolveNode]; rw [hdup]⟩
    | none =>
      obtain ⟨e, he⟩ :=
        resolveItems_dangling dirs docs (path ++ [i]) 0 cs h
      refine ⟨e, ?_⟩
      simp only [resolveNode]
      rw [hdup, he]
  | .autogen dir, h => by
    simp only [nodeDangling] at h
    cases h

theorem resolveItems_dangling (dirs : List (List String))
    (docs : List ContentDocument) (path : List Nat) (i : Nat) :
    ∀ ns, itemsDangling docs ns = true →
      ∃ e, resolveItems dirs docs path i ns = .error e
  | [], h => by
    simp only [itemsDangling] at h
    cases h
  | n :: ns, h => by
    simp only [itemsDangling, Bool.or_eq_true] at h
    cases hn : resolveNode dirs docs path i n with
    | error e =>
      exact ⟨e, by simp only [resolveItems]; rw [hn]⟩
    | ok pr =>
      obtain ⟨r, w⟩ := pr
      rcases h with h | h
      · obtain ⟨e, he⟩ := resolveNode_dangling dirs docs path i n h
        rw [hn] at he
        cases he
      · obtain ⟨e, he⟩ :=
          resolveItems_dangling dirs docs path (i + 1) ns h
        refine ⟨e, ?_⟩
        simp only [resolveItems]
        rw [hn, he]

end


theorem findLabelIdx_eq_none_iff (l : String) :
    ∀ ns, findLabelIdx l ns = none ↔ ∀ n ∈ ns, groupLabel n ≠ some l
  | [] => by simp [findLabelIdx]
  | n :: ns => by
    simp only [findLabelIdx]
    by_cases hg : groupLabel n = some l
    · rw [if_pos hg]
      simp only [reduceCtorEq, false_iff, not_forall]
      exact ⟨n, List.mem_cons_self n ns, by simp [hg]⟩
    · rw [if_neg hg]
      rw [Option.map_eq_none']
      rw [findLabelIdx_eq_none_iff l ns]
      constructor
      · intro hall m hm
        rcases List.mem_cons.mp hm with h | h
        · rw [h]; exact hg
        · exact hall m h
      · intro hall m hm
        exact hall m (List.mem_cons_of_mem n hm)

theorem label_mem_filterMap {l : String} {ns : List Node}
    (h : ¬ findLabelIdx l ns = none) : l ∈ ns.filterMap groupLabel := by
  rw [findLabelIdx_eq_none_iff] at h
  push_neg at h
  obtain ⟨m, hm, hgm⟩ := h
  exact List.mem_filterMap.mpr ⟨m, hm, hgm⟩

theorem label_not_mem_filterMap {l : String} {ns : List Node}
    (h : findLabelIdx l ns = none) : l ∉ ns.filterMap groupLabel := by
  rw [findLabelIdx_eq_none_iff] at h
  intro hmem
  obtain ⟨m, hm, hgm⟩ := List.mem_filterMap.mp hmem
  exact h m hm hgm

theorem firstDup_cons_none {n : Node} {ns : List Node}
    (hg : groupLabel n = none) : firstDup (n :: ns) =
      (firstDup ns).map fun p => (p.1 + 1, p.2 + 1) := by
  cases n with
  | entry l t a => simp [firstDup, groupLabel]
  | group l c cs => simp [groupLabel] at hg
  | autogen d => simp [firstDup, groupLabel]

theorem firstDup_cons_found {n : Node} {ns : List Node} {l : String}
    {j : Nat} (hg : groupLabel n = some l)
    (hf : findLabelIdx l ns = some j) :
    firstDup (n :: ns) = some (0, j + 1) := by
  cases n with
  | entry l2 t a => simp [groupLabel] at hg
  | group l2 c cs =>
    simp only [groupLabel, Option.some.injEq] at hg
    subst hg
    simp [firstDup, groupLabel, hf]
  | autogen d => simp [groupLabel] at hg

theorem firstDup_cons_notFound {n : Node} {ns : List Node} {l : String}
    (hg : groupLabel n = some l) (hf : findLabelIdx l ns = none) :
    firstDup (n :: ns) = (firstDup ns).map fun p => (p.1 + 1, p.2 + 1) := by
  cases n with
  | entry l2 t a => simp [groupLabel] at hg
  | group l2 c cs =>
    simp only [groupLabel, Option.some.injEq] at hg
    subst hg
    simp [firstDup, groupLabel, hf]
  | autogen d => simp [groupLabel] at hg

theorem firstDup_eq_none_iff :
    ∀ items : List Node, firstDup items = none ↔
      (items.filterMap groupLabel).Nodup
  | [] => by simp [firstDup]
  | n :: ns => by
    cases hg : groupLabel n with
    | none =>
      rw [firstDup_cons_none hg, List.filterMap_cons_none hg,
        Option.map_eq_none']
      exact firstDup_eq_none_iff ns
    | some l =>
      rw [List.filterMap_cons_some hg]
      cases hf : findLabelIdx l ns with
      | some j =>
        rw [firstDup_cons_found hg hf]
        simp only [reduceCtorEq, false_iff]
        intro hnodup
        exact (List.nodup_cons.mp hnodup).1
          (label_mem_filterMap (by rw [hf]; simp))
      | none =>
        rw [firstDup_cons_notFound hg hf, Option.map_eq_none',
          List.nodup_cons, firstDup_eq_none_iff ns]
        constructor
        · exact fun h => ⟨label_not_mem_filterMap hf, h⟩
        · exact fun h => h.2

/-- Two sibling groups of the list share the same label. -/
def SharesLabel (items : List Node) : Prop :=
  ∃ pre mid post l c1 cs1 c2 cs2,
    items =
      pre ++ Node.group l c1 cs1 :: (mid ++ Node.group l c2 cs2 :: post)

theorem sharesLabel_not_nodup {items : List Node}
    (h : SharesLabel items) : ¬ (items.filterMap groupLabel).Nodup := by
  obtain ⟨pre, mid, post, l, c1, cs1, c2, cs2, rfl⟩ := h
  intro hnodup
  rw [List.filterMap_append,
    List.filterMap_cons_some
      (rfl : groupLabel (Node.group l c1 cs1) = some l),
    List.filterMap_append,
    List.filterMap_cons_some
      (rfl : groupLabel (Node.group l c2 cs2) = some l)] at hnodup
  have h2 := (List.nodup_append.mp hnodup).2.1
  have h3 := (List.nodup_cons.mp h2).1
  exact h3 (List.mem_append_right _ (List.mem_cons_self l _))

theorem sharesLabel_firstDup_ne_none {items : List Node}
    (h : SharesLabel items) : firstDup items ≠ none := by
  intro hnone
  exact sharesLabel_not_nodup h ((firstDup_eq_none_iff items).mp hnone)

theorem findLabelIdx_spec (l : String) :
    ∀ ns j, findLabelIdx l ns = some j →
      ∃ n, ns[j]? = some n ∧ groupLabel n = some l
  | [], j, h => by simp [findLabelIdx] at h
  | n :: ns, j, h => by
    simp only [findLabelIdx] at h
    by_cases hg : groupLabel n = some l
    · rw [if_pos hg] at h
      cases h
      exact ⟨n, by simp, hg⟩
    · rw [if_neg hg] at h
      rw [Option.map_eq_some'] at h
      obtain ⟨j2, hj2, rfl⟩ := h
      obtain ⟨m, hm, hgm⟩ := findLabelIdx_spec l ns j2 hj2
      exact ⟨m, by simpa using hm, hgm⟩

theorem firstDup_spec :
    ∀ (items : List Node) (i j : Nat), firstDup items = some (i, j) →
      i < j ∧ ∃ l n1 n2, items[i]? = some n1 ∧ items[j]? = some n2 ∧
        groupLabel n1 = some l ∧ groupLabel n2 = some l
  | [], i, j, h => by simp [firstDup] at h
  | n :: ns, i, j, h => by
    cases hg : groupLabel n with
    | some l =>
      cases hf : findLabelIdx l ns with
      | some j2 =>
        rw [firstDup_cons_found hg hf] at h
        cases h
        obtain ⟨m, hm, hgm⟩ := findLabelIdx_spec l ns j2 hf
        exact ⟨Nat.succ_pos j2, l, n, m, by simp, by simpa using hm,
          hg, hgm⟩
      | none =>
        rw [firstDup_cons_notFound hg hf, Option.map_eq_some'] at h
        obtain ⟨⟨i2, j2⟩, hij, heq⟩ := h
        cases heq
        obtain ⟨hlt, l2, n1, n2, h1, h2, hg1, hg2⟩ :=
          firstDup_spec ns i2 j2 hij
        exact ⟨Nat.succ_lt_succ hlt, l2, n1, n2, by simpa using h1,
          by simpa using h2, hg1, hg2⟩
    | none =>
      rw [firstDup_cons_none hg, Option.map_eq_some'] at h
      obtain ⟨⟨i2, j2⟩, hij, heq⟩ := h
      cases heq
      obtain ⟨hlt, l2, n1, n2, h1, h2, hg1, hg2⟩ :=
        firstDup_spec ns i2 j2 hij
      exact ⟨Nat.succ_lt_succ hlt, l2, n1, n2, by simpa using h1,
        by simpa using h2, hg1, hg2⟩

mutual

/-- Group labels are pairwise distinct among the children of every group
inside the node. -/
def nodeLabelsUnique : Node → Bool
  | .entry _ _ _ => true
  | .autogen _ => true
  | .group _ _ cs =>
    decide (cs.filterMap groupLabel).Nodup && itemsLabelsUnique cs

/-- Group labels are pairwise distinct among the children of every group
inside the list. -/
def itemsLabelsUnique : List Node → Bool
  | [] => true
  | n :: ns => nodeLabelsUnique n && itemsLabelsUnique ns

end

/-- Group labels are pairwise distinct among the top-level sections and
among the children of every group of the configuration. -/
def configLabelsUnique (config : List Node) : Bool :=
  decide (config.filterMap groupLabel).Nodup && itemsLabelsUnique config

mutual

theorem resolveNode_labelsUnique (dirs : List (List String))
    (docs : List ContentDocument) (path : List Nat) (i : Nat) :
    ∀ n r w, resolveNode dirs docs path i n = .ok (r, w) →
      nodeLabelsUnique n = true
  | .entry _ _ _, r, w, _ => rfl
  | .group l c cs, r, w, h => by
    simp only [resolveNode] at h
    cases hdup : firstDup cs with
    | some p => rw [hdup] at h; cases h
    | none =>
      rw [hdup] at h
      cases hres : resolveItems dirs docs (path ++ [i]) 0 cs with
      | error e => rw [hres] at h; cases h
      | ok pr =>
        obtain ⟨rs, ws2⟩ := pr
        simp only [nodeLabelsUnique, Bool.and_eq_true, decide_eq_true_eq]
        exact ⟨(firstDup_eq_none_iff cs).mp hdup,
          resolveItems_labelsUnique dirs docs (path ++ [i]) 0 cs rs _ hres⟩
  | .autogen _, r, w, _ => rfl

theorem resolveItems_labelsUnique (dirs : List (List String))
    (docs : List ContentDocument) (path : List Nat) (i : Nat) :
    ∀ ns rs ws, resolveItems dirs docs path i ns = .ok (rs, ws) →
      itemsLabelsUnique ns = true
  | [], rs, ws, _ => rfl
  | n :: ns, rs, ws, h => by
    simp only [resolveItems] at h
    cases hn : resolveNode dirs docs path i n with
    | error e => rw [hn] at h; cases h
    | ok pr =>
      obtain ⟨r, w⟩ := pr
      rw [hn] at h
      cases hns : resolveItems dirs docs path (i + 1) ns with
      | error e => rw [hns] at h; cases h
      | ok pr2 =>
        obtain ⟨rs2, ws2⟩ := pr2
        simp only [itemsLabelsUnique, Bool.and_eq_true]
        exact ⟨resolveNode_labelsUnique dirs docs path i n r _ hn,
          resolveItems_labelsUnique dirs docs path (i + 1) ns rs2 _ hns⟩

end

theorem resolve_labelsUnique (config : List Node)
    (docs : List ContentDocument) (res : List Node) (ws : List Warning)
    (h : resolve config docs = .ok (res, ws)) :
    configLabelsUnique config = true := by
  unfold resolve at h
  cases hdup : firstDup config with
  | some p => rw [hdup] at h; cases h
  | none =>
    rw [hdup] at h
    simp only [configLabelsUnique, Bool.and_eq_true, decide_eq_true_eq]
    exact ⟨(firstDup_eq_none_iff config).mp hdup,
      resolveItems_labelsUnique (itemsDirs config) docs [] 0 config res ws h⟩

theorem countP_self_le_one_of_nodup {l : List (List String)}
    (hnd : l.Nodup) (dir : List String) :
    l.countP (fun d2 => d2 = dir) ≤ 1 := by
  induction l with
  | nil => simp
  | cons x xs ih =>
    rw [List.countP_cons]
    rcases List.nodup_cons.mp hnd with ⟨hx, hxs⟩
    by_cases hxd : x = dir
    · have hz : xs.countP (fun d2 => d2 = dir) = 0 := by
        rw [List.countP_eq_zero]
        intro y hy
        simp only [decide_eq_true_eq]
        intro he
        subst he
        subst hxd
        exact hx hy
      simp [hz, hxd]
    · have hdec : (decide (x = dir)) = false := by
        simp [hxd]
      rw [hdec]
      simpa using ih hxs

mutual

theorem resolveNode_no_ambiguous (dirs : List (List String))
    (docs : List ContentDocument) (path : List Nat) (i : Nat)
    (hnd : dirs.Nodup) :
    ∀ n e, resolveNode dirs docs path i n = .error e →
      ∀ d, e ≠ .ambiguousClaim d
  | .entry l t a, e, h => by
    simp only [resolveNode] at h
    split at h
    · cases h
    · cases h
      intro d
      simp
  | .group l c cs, e, h => by
    simp only [resolveNode] at h
    cases hdup : firstDup cs with
    | some p =>
      rw [hdup] at h
      cases h
      intro d
      simp
    | none =>
      rw [hdup] at h
      cases hres : resolveItems dirs docs (path ++ [i]) 0 cs with
      | error e2 =>
        rw [hres] at h
        cases h
        exact resolveItems_no_ambiguous dirs docs (path ++ [i]) 0 hnd
          cs _ hres
      | ok pr =>
        obtain ⟨rs, ws2⟩ := pr
        rw [hres] at h
        cases h
  | .autogen dir, e, h => by
    simp only [resolveNode] at h
    have hcount : dirs.countP (fun d2 => d2 = dir) ≤ 1 :=
      countP_self_le_one_of_nodup hnd dir
    rw [if_neg (by simp; omega)] at h
    cases h

theorem resolveItems_no_ambiguous (dirs : List (List String))
    (docs : List ContentDocument) (path : List Nat) (i : Nat)
    (hnd : dirs.Nodup) :
    ∀ ns e, resolveItems dirs docs path i ns = .error e →
      ∀ d, e ≠ .ambiguousClaim d
  | [], e, h => by
    simp only [resolveItems] at h
    cases h
  | n :: ns, e, h => by
    simp only [resolveItems] at h
    cases hn : resolveNode dirs docs path i n with
    | error e2 =>
      rw [hn] at h
      cases h
      exact resolveNode_no_ambiguous dirs docs path i hnd n _ hn
    | ok pr =>
      obtain ⟨r, w⟩ := pr
      rw [hn] at h
      cases hns : resolveItems dirs docs path (i + 1) ns with
      | error e2 =>
        rw [hns] at h
        cases h
        exact resolveItems_no_ambiguous dirs docs path (i + 1) hnd
          ns _ hns
      | ok pr2 =>
        obtain ⟨rs2, ws2⟩ := pr2
        rw [hns] at h
        cases h

end

theorem resolve_no_ambiguous (config : List Node)
    (docs : List ContentDocument) (hnd : (itemsDirs config).Nodup)
    (e : RError) (h : resolve config docs = .error e) :
    ∀ d, e ≠ .ambiguousClaim d := by
  unfold resolve at h
  cases hdup : firstDup config with
  | some p =>
    rw [hdup] at h
    cases h
    intro d
    simp
  | none =>
    rw [hdup] at h
    exact resolveItems_no_ambiguous (itemsDirs config) docs [] 0 hnd
      config e h

theorem isPrefixOf_iff {a b : List String} :
    a.isPrefixOf b = true ↔ a <+: b := by
  exact List.isPrefixOf_iff_prefix

theorem isPrefix_antisymm {a b : List String} (h1 : a <+: b)
    (h2 : b <+: a) : a = b :=
  h1.eq_of_length (Nat.le_antisymm h1.length_le h2.length_le)

/-- The directive claims some document of the set carrying exactly this
path. -/
def claimsPath (dirs : List (List String)) (docs : List ContentDocument)
    (dir : List String) (p : List String) : Bool :=
  docs.any fun d => d.path = p && claimedBy dirs dir d

mutual

/-- Number of autogenerated entries with the given target inside the
node. -/
def nodeAutoCount (p : List String) : Node → Nat
  | .entry _ t a => if a && t = p then 1 else 0
  | .group _ _ cs => itemsAutoCount p cs
  | .autogen _ => 0

/-- Number of autogenerated entries with the given target inside the
forest. -/
def itemsAutoCount (p : List String) : List Node → Nat
  | [] => 0
  | n :: ns => nodeAutoCount p n + itemsAutoCount p ns

end

theorem itemsAutoCount_append (p : List String) :
    ∀ (r rs : List Node), itemsAutoCount p (r ++ rs) =
      itemsAutoCount p r + itemsAutoCount p rs
  | [], rs => by simp [itemsAutoCount]
  | n :: r, rs => by
    simp only [List.cons_append, itemsAutoCount, List.append_eq,
      itemsAutoCount_append p r rs, Nat.add_assoc]

theorem itemsAutoCount_entries (p : List String) :
    ∀ l : List ContentDocument,
      itemsAutoCount p (l.map fun d => Node.entry d.title d.path true) =
        l.countP fun d => d.path = p
  | [] => rfl
  | d :: l => by
    simp only [List.map_cons, itemsAutoCount, nodeAutoCount,
      Bool.true_and, List.countP_cons, itemsAutoCount_entries p l]
    omega

theorem claimedBy_congr_path {dirs : List (List String)}
    {dir : List String} {d d' : ContentDocument} (h : d.path = d'.path) :
    claimedBy dirs dir d = claimedBy dirs dir d' := by
  simp [claimedBy, matchesDir, h]

theorem collect_countP {dirs : List (List String)} {dir p : List String}
    {docs : List ContentDocument}
    (hn : (docs.map ContentDocument.path).Nodup) :
    (collectDocs dirs dir docs).countP (fun d => d.path = p) =
      if claimsPath dirs docs dir p then 1 else 0 := by
  rw [List.Perm.countP_eq _ (collectDocs_perm dirs dir docs),
    List.countP_filter]
  cases hcp : claimsPath dirs docs dir p with
  | false =>
    simp only [Bool.false_eq_true, if_false]
    rw [List.countP_eq_zero]
    unfold claimsPath at hcp
    rw [List.any_eq_false] at hcp
    exact hcp
  | true =>
    simp only [eq_self_iff_true, if_true]
    have hub : docs.countP (fun d => decide (d.path = p)) ≤ 1 := by
      have hmap := List.countP_map (fun x => decide (x = p))
        ContentDocument.path docs
      have hcong : docs.countP
          ((fun x => decide (x = p)) ∘ ContentDocument.path) =
          docs.countP (fun d => decide (d.path = p)) := by
        exact List.countP_congr fun x _ => by simp
      rw [← hcong, ← hmap]
      exact countP_self_le_one_of_nodup hn p
    have hub2 : docs.countP
        (fun a => decide (a.path = p) && claimedBy dirs dir a) ≤ 1 := by
      refine Nat.le_trans (List.countP_mono_left ?_) hub
      intro x _ hx
      rw [Bool.and_eq_true] at hx
      exact hx.1
    have hlb : 0 < docs.countP
        (fun a => decide (a.path = p) && claimedBy dirs dir a) := by
      unfold claimsPath at hcp
      rw [List.any_eq_true] at hcp
      obtain ⟨a, ha, hpa⟩ := hcp
      exact List.countP_pos_iff.mpr ⟨a, ha, hpa⟩
    omega

mutual

theorem resolveNode_autoCount (dirs : List (List String))
    (docs : List ContentDocument) (path : List Nat) (i : Nat)
    (hn : (docs.map ContentDocument.path).Nodup) (p : List String) :
    ∀ n r w, resolveNode dirs docs path i n = .ok (r, w) →
      itemsAutoCount p r =
        (nodeDirs n).countP fun dir => claimsPath dirs docs dir p
  | .entry l t a, r, w, h => by
    simp only [resolveNode] at h
    split at h
    · cases h
      simp [itemsAutoCount, nodeAutoCount, nodeDirs]
    · cases h
  | .group l c cs, r, w, h => by
    simp only [resolveNode] at h
    cases hdup : firstDup cs with
    | some pp => rw [hdup] at h; cases h
    | none =>
      rw [hdup] at h
      cases hres : resolveItems dirs docs (path ++ [i]) 0 cs with
      | error e => rw [hres] at h; cases h
      | ok pr =>
        obtain ⟨rs, ws2⟩ := pr
        rw [hres] at h
        cases h
        simp only [itemsAutoCount, nodeAutoCount, nodeDirs,
          Nat.add_zero]
        exact resolveItems_autoCount dirs docs (path ++ [i]) 0 hn p
          cs rs _ hres
  | .autogen dir, r, w, h => by
    simp only [resolveNode] at h
    split at h
    · cases h
    · have hrw : expandAutogen dirs dir docs = (r, w) := by
        injection h
      have h1 : r = (expandAutogen dirs dir docs).1 := by rw [hrw]
      rw [h1]
      unfold expandAutogen
      simp only []
      rw [itemsAutoCount_entries p (collectDocs dirs dir docs)]
      rw [collect_countP hn]
      simp only [nodeDirs, List.countP_cons, List.countP_nil]
      omega

theorem resolveItems_autoCount (dirs : List (List String))
    (docs : List ContentDocument) (path : List Nat) (i : Nat)
    (hn : (docs.map ContentDocument.path).Nodup) (p : List String) :
    ∀ ns rs ws, resolveItems dirs docs path i ns = .ok (rs, ws) →
      itemsAutoCount p rs =
        (itemsDirs ns).countP fun dir => claimsPath dirs docs dir p
  | [], rs, ws, h => by
    simp only [resolveItems] at h
    cases h
    rfl
  | n :: ns, rs, ws, h => by
    simp only [resolveItems] at h
    cases hnn : resolveNode dirs docs path i n with
    | error e => rw [hnn] at h; cases h
    | ok pr =>
      obtain ⟨r, w⟩ := pr
      rw [hnn] at h
      cases hns : resolveItems dirs docs path (i + 1) ns with
      | error e => rw [hns] at h; cases h
      | ok pr2 =>
        obtain ⟨rs2, ws2⟩ := pr2
        rw [hns] at h
        cases h
        rw [itemsAutoCount_append]
        simp only [itemsDirs, List.countP_append]
        rw [resolveNode_autoCount dirs docs path i hn p n r _ hnn,
          resolveItems_autoCount dirs docs path (i + 1) hn p ns rs2 _ hns]

end

mutual

theorem resolveNode_claim_count (dirs : List (List String))
    (docs : List ContentDocument) (path : List Nat) (i : Nat) :
    ∀ n r w, resolveNode dirs docs path i n = .ok (r, w) →
      ∀ dir ∈ nodeDirs n, docs.any (claimedBy dirs dir) = true →
        dirs.countP (fun d2 => d2 = dir) ≤ 1
  | .entry l t a, r, w, h => by
    intro dir hdir
    simp [nodeDirs] at hdir
  | .group l c cs, r, w, h => by
    simp only [resolveNode] at h
    cases hdup : firstDup cs with
    | some pp => rw [hdup] at h; cases h
    | none =>
      rw [hdup] at h
      cases hres : resolveItems dirs docs (path ++ [i]) 0 cs with
      | error e => rw [hres] at h; cases h
      | ok pr =>
        obtain ⟨rs, ws2⟩ := pr
        intro dir hdir hany
        exact resolveItems_claim_count dirs docs (path ++ [i]) 0
          cs rs _ hres dir hdir hany
  | .autogen dir0, r, w, h => by
    simp only [resolveNode] at h
    intro dir hdir hany
    simp only [nodeDirs, List.mem_singleton] at hdir
    subst hdir
    split at h
    · cases h
    · rename_i hcond
      rw [Bool.and_eq_true] at hcond
      push_neg at hcond
      by_cases hc2 : 2 ≤ dirs.countP (fun d2 => d2 = dir)
      · have := hcond (by simpa using hc2)
        rw [hany] at this
        cases this rfl
      · omega

theorem resolveItems_claim_count (dirs : List (List String))
    (docs : List ContentDocument) (path : List Nat) (i : Nat) :
    ∀ ns rs ws, resolveItems dirs docs path i ns = .ok (rs, ws) →
      ∀ dir ∈ itemsDirs ns, docs.any (claimedBy dirs dir) = true →
        dirs.countP (fun d2 => d2 = dir) ≤ 1
  | [], rs, ws, h => by
    intro dir hdir
    simp [itemsDirs] at hdir
  | n :: ns, rs, ws, h => by
    simp only [resolveItems] at h
    cases hnn : resolveNode dirs docs path i n with
    | error e => rw [hnn] at h; cases h
    | ok pr =>
      obtain ⟨r, w⟩ := pr
      rw [hnn] at h
      cases hns : resolveItems dirs docs path (i + 1) ns with
      | error e => rw [hns] at h; cases h
      | ok pr2 =>
        obtain ⟨rs2, ws2⟩ := pr2
        intro dir hdir hany
        simp only [itemsDirs, List.mem_append] at hdir
        rcases hdir with hdir | hdir
        · exact resolveNode_claim_count dirs docs path i n r _ hnn
            dir hdir hany
        · exact resolveItems_claim_count dirs docs path (i + 1)
            ns rs2 _ hns dir hdir hany

end

theorem exists_maximal_matching (dirs : List (List String))
    (p : List String) (hex : ∃ dir ∈ dirs, dir <+: p) :
    ∃ m ∈ dirs, m <+: p ∧ ∀ y ∈ dirs, y <+: p → y <+: m := by
  induction dirs with
  | nil => simp at hex
  | cons x rest ih =>
    by_cases hx : x <+: p
    · by_cases hrest : ∃ y ∈ rest, y <+: p
      · obtain ⟨m, hm, hmp, hmax⟩ := ih hrest
        rcases List.prefix_or_prefix_of_prefix hx hmp with hxm | hmx
        · refine ⟨m, List.mem_cons_of_mem x hm, hmp, ?_⟩
          intro y hy hyp
          rcases List.mem_cons.mp hy with rfl | hy2
          · exact hxm
          · exact hmax y hy2 hyp
        · refine ⟨x, List.mem_cons_self x rest, hx, ?_⟩
          intro y hy hyp
          rcases List.mem_cons.mp hy with rfl | hy2
          · exact List.prefix_refl y
          · exact (hmax y hy2 hyp).trans hmx
      · refine ⟨x, List.mem_cons_self x rest, hx, ?_⟩
        intro y hy hyp
        rcases List.mem_cons.mp hy with rfl | hy2
        · exact List.prefix_refl y
        · exact absurd ⟨y, hy2, hyp⟩ hrest
    · have hex2 : ∃ y ∈ rest, y <+: p := by
        obtain ⟨d, hd, hdp⟩ := hex
        rcases List.mem_cons.mp hd with rfl | hd2
        · exact absurd hdp hx
        · exact ⟨d, hd2, hdp⟩
      obtain ⟨m, hm, hmp, hmax⟩ := ih hex2
      refine ⟨m, List.mem_cons_of_mem x hm, hmp, ?_⟩
      intro y hy hyp
      rcases List.mem_cons.mp hy with rfl | hy2
      · exact absurd hyp hx
      · exact hmax y hy2 hyp

theorem claimedBy_maximal {dirs : List (List String)}
    {d : ContentDocument} {m : List String} (hmp : m <+: d.path)
    (hmax : ∀ y ∈ dirs, y <+: d.path → y <+: m) :
    claimedBy dirs m d = true := by
  unfold claimedBy
  rw [Bool.and_eq_true]
  constructor
  · exact isPrefixOf_iff.mpr hmp
  · cases hany : dirs.any
        (fun d2 => d2 ≠ m && m.isPrefixOf d2 && matchesDir d2 d) with
    | false => rfl
    | true =>
      exfalso
      rw [List.any_eq_true] at hany
      obtain ⟨d2, hd2, hpred⟩ := hany
      rw [Bool.and_eq_true, Bool.and_eq_true] at hpred
      obtain ⟨⟨hne, hpre⟩, hmat⟩ := hpred
      rw [decide_eq_true_eq] at hne
      have hmat2 : d2 <+: d.path := isPrefixOf_iff.mp hmat
      have hpre2 : m <+: d2 := isPrefixOf_iff.mp hpre
      exact hne (isPrefix_antisymm (hmax d2 hd2 hmat2) hpre2)

theorem claimedBy_unique {dirs : List (List String)}
    {d : ContentDocument} {dir1 dir2 : List String}
    (h1 : claimedBy dirs dir1 d = true)
    (h2 : claimedBy dirs dir2 d = true)
    (hd1 : dir1 ∈ dirs) (hd2 : dir2 ∈ dirs) : dir1 = dir2 := by
  unfold claimedBy at h1 h2
  rw [Bool.and_eq_true] at h1 h2
  obtain ⟨hm1, hno1⟩ := h1
  obtain ⟨hm2, hno2⟩ := h2
  have hp1 : dir1 <+: d.path := isPrefixOf_iff.mp hm1
  have hp2 : dir2 <+: d.path := isPrefixOf_iff.mp hm2
  by_contra hne
  rcases List.prefix_or_prefix_of_prefix hp1 hp2 with h12 | h21
  · cases hany : dirs.any
        (fun d2 => d2 ≠ dir1 && dir1.isPrefixOf d2 && matchesDir d2 d) with
    | true => rw [hany] at hno1; cases hno1
    | false =>
      rw [List.any_eq_false] at hany
      refine hany dir2 hd2 ?_
      rw [Bool.and_eq_true, Bool.and_eq_true]
      exact ⟨⟨decide_eq_true fun he => hne he.symm,
        isPrefixOf_iff.mpr h12⟩, hm2⟩
  · cases hany : dirs.any
        (fun d2 => d2 ≠ dir2 && dir2.isPrefixOf d2 && matchesDir d2 d) with
    | true => rw [hany] at hno2; cases hno2
    | false =>
      rw [List.any_eq_false] at hany
      refine hany dir1 hd1 ?_
      rw [Bool.and_eq_true, Bool.and_eq_true]
      exact ⟨⟨decide_eq_true hne, isPrefixOf_iff.mpr h21⟩, hm1⟩

theorem claiming_dir_maximal {dirs : List (List String)}
    {docs : List ContentDocument} {d : ContentDocument}
    {dir : List String} (hdir : dir ∈ dirs)
    (hcp : claimsPath dirs docs dir d.path = true) :
    ∀ y ∈ dirs, y <+: d.path → y <+: dir := by
  intro y hy hyp
  obtain ⟨m, hmmem, hmp, hmax⟩ :=
    exists_maximal_matching dirs d.path ⟨y, hy, hyp⟩
  have hclaim := claimedBy_maximal hmp hmax
  unfold claimsPath at hcp
  obtain ⟨doc, hdoc, hpred⟩ := List.any_eq_true.mp hcp
  rw [Bool.and_eq_true] at hpred
  obtain ⟨hpath, hcl⟩ := hpred
  rw [decide_eq_true_eq] at hpath
  rw [claimedBy_congr_path hpath] at hcl
  rw [claimedBy_unique hcl hclaim hdir hmmem]
  exact hmax y hy hyp

theorem resolve_claims_once (config : List Node)
    (docs : List ContentDocument) (res : List Node) (ws : List Warning)
    (d : ContentDocument) (h : resolve config docs = .ok (res, ws))
    (hn : (docs.map ContentDocument.path).Nodup) (hd : d ∈ docs)
    (hex : ∃ dir ∈ itemsDirs config, dir <+: d.path) :
    itemsAutoCount d.path res = 1 := by
  obtain ⟨m, hmmem, hmp, hmax⟩ :=
    exists_maximal_matching (itemsDirs config) d.path hex
  have hclaim : claimedBy (itemsDirs config) m d = true :=
    claimedBy_maximal hmp hmax
  have hany : docs.any (claimedBy (itemsDirs config) m) = true :=
    List.any_eq_true.mpr ⟨d, hd, hclaim⟩
  unfold resolve at h
  cases hdup : firstDup config with
  | some p => rw [hdup] at h; cases h
  | none =>
    rw [hdup] at h
    rw [resolveItems_autoCount (itemsDirs config) docs [] 0 hn d.path
      config res ws h]
    have hcong : (itemsDirs config).countP
        (fun dir => claimsPath (itemsDirs config) docs dir d.path) =
        (itemsDirs config).countP (fun dir => dir = m) := by
      refine List.countP_congr ?_
      intro dir hdir
      simp only [decide_eq_true_eq]
      constructor
      · intro hcp
        unfold claimsPath at hcp
        obtain ⟨doc, hdoc, hpred⟩ := List.any_eq_true.mp hcp
        rw [Bool.and_eq_true] at hpred
        obtain ⟨hpath, hcl⟩ := hpred
        rw [decide_eq_true_eq] at hpath
        rw [claimedBy_congr_path hpath] at hcl
        exact claimedBy_unique hcl hclaim hdir hmmem
      · rintro rfl
        unfold claimsPath
        refine List.any_eq_true.mpr ⟨d, hd, ?_⟩
        rw [Bool.and_eq_true]
        exact ⟨by simp, hclaim⟩
    rw [hcong]
    have hub := resolveItems_claim_count (itemsDirs config) docs [] 0
      config res ws h m hmmem hany
    have hlb : 0 < (itemsDirs config).countP (fun dir => dir = m) :=
      List.countP_pos_iff.mpr ⟨m, hmmem, by simp⟩
    omega

theorem resolveNode_empty_autogen (dirs : List (List String))
    (docs : List ContentDocument) (path : List Nat) (i : Nat)
    {dir : List String} (l : String) (c : Bool)
    (hz : docs.filter (claimedBy dirs dir) = []) :
    resolveNode dirs docs path i (.group l c [.autogen dir]) =
      .ok ([.group l c []], [.emptyAutogenerate dir]) := by
  have hany : docs.any (claimedBy dirs dir) = false := by
    rw [List.any_eq_false]
    intro a ha
    exact List.filter_eq_nil_iff.mp hz a ha
  have hcol : collectDocs dirs dir docs = [] := by
    unfold collectDocs
    rw [hz]
    rfl
  simp [resolveNode, resolveItems, firstDup, groupLabel, expandAutogen,
    hcol, hany]

theorem resolveItems_empty_autogen (dirs : List (List String))
    (docs : List ContentDocument) (path : List Nat) (i : Nat)
    {dir : List String} (l : String) (c : Bool) (rest : List Node)
    (hz : docs.filter (claimedBy dirs dir) = []) :
    resolveItems dirs docs path i (.group l c [.autogen dir] :: rest) =
      (resolveItems dirs docs path (i + 1) rest).map fun pr =>
        (Node.group l c [] :: pr.1,
          Warning.emptyAutogenerate dir :: pr.2) := by
  simp only [resolveItems]
  rw [resolveNode_empty_autogen dirs docs path i l c hz]
  cases hrest : resolveItems dirs docs path (i + 1) rest with
  | error e => rfl
  | ok pr => rfl

theorem docLe_none_mono {a b : ContentDocument} (h : DocLe a b)
    (ha : a.order = none) : b.order = none := by
  unfold DocLe docLe at h
  rw [ha] at h
  cases hb : b.order with
  | none => rfl
  | some j => rw [hb] at h; cases h

theorem docLe_some_le {a b : ContentDocument} {i j : Int} (h : DocLe a b)
    (ha : a.order = some i) (hb : b.order = some j) : i ≤ j := by
  unfold DocLe docLe at h
  rw [ha, hb] at h
  have h2 : (if i = j then pathLe a.path b.path
      else decide (i < j)) = true := h
  by_cases hij : i = j
  · omega
  · rw [if_neg hij, decide_eq_true_eq] at h2
    omega

theorem docLe_none_pathLe {a b : ContentDocument} (h : DocLe a b)
    (ha : a.order = none) (hb : b.order = none) :
    pathLe a.path b.path = true := by
  unfold DocLe docLe at h
  rw [ha, hb] at h
  exact h

theorem resolveNode_broken (dirs : List (List String))
    (docs : List ContentDocument) (path : List Nat) (i : Nat)
    {t : List String} (l : String) (a : Bool)
    (hmiss : docs.all (fun d => d.path ≠ t) = true) :
    resolveNode dirs docs path i (.entry l t a) =
      .error (.brokenReference l t) := by
  have hany : (docs.any fun d => decide (d.path = t)) = false := by
    rw [List.any_eq_false]
    intro d hd
    have := List.all_eq_true.mp hmiss d hd
    simpa using this
  simp [resolveNode, hany]

theorem resolveNode_entry_found (dirs : List (List String))
    (docs : List ContentDocument) (path : List Nat) (i : Nat)
    {t : List String} (l : String) (a : Bool)
    (hfound : (docs.any fun d => d.path = t) = true) :
    resolveNode dirs docs path i (.entry l t a) =
      .ok ([.entry l t false], []) := by
  simp [resolveNode, hfound]

theorem resolve_fails_of_dangling (config : List Node)
    (docs : List ContentDocument)
    (h : itemsDangling docs config = true) :
    ∃ e, resolve config docs = .error e := by
  unfold resolve
  cases hdup : firstDup config with
  | some p => exact ⟨_, rfl⟩
  | none =>
    exact resolveItems_dangling (itemsDirs config) docs [] 0 config h

theorem resolve_itemsOk (config : List Node)
    (docs : List ContentDocument) (res : List Node) (ws : List Warning)
    (h : resolve config docs = .ok (res, ws)) :
    itemsOk docs res = true := by
  unfold resolve at h
  cases hdup : firstDup config with
  | some p => rw [hdup] at h; cases h
  | none =>
    rw [hdup] at h
    exact resolveItems_itemsOk (itemsDirs config) docs [] 0 config res ws h

theorem countP_two_distinct {α : Type} [DecidableEq α] {l : List α}
    {f : α → Bool} (hnd : l.Nodup) (h2 : 2 ≤ l.countP f) :
    ∃ a ∈ l, ∃ b ∈ l, a ≠ b ∧ f a = true ∧ f b = true := by
  induction l with
  | nil => simp at h2
  | cons x xs ih =>
    rw [List.countP_cons] at h2
    rcases List.nodup_cons.mp hnd with ⟨hx, hxs⟩
    by_cases hfx : f x = true
    · rw [if_pos hfx] at h2
      have h1 : 1 ≤ xs.countP f := by omega
      obtain ⟨b, hb, hfb⟩ := (@List.countP_pos_iff _ xs f).mp (by omega)
      refine ⟨x, List.mem_cons_self x xs, b, List.mem_cons_of_mem x hb,
        ?_, hfx, hfb⟩
      intro he
      exact hx (he ▸ hb)
    · rw [if_neg hfx] at h2
      obtain ⟨a, ha, b, hb, hab, hfa, hfb⟩ := ih hxs (by omega)
      exact ⟨a, List.mem_cons_of_mem x ha, b, List.mem_cons_of_mem x hb,
        hab, hfa, hfb⟩

/-- Parts of a successful resolution, defaulting to empty on error. -/
def okParts : Except RError (List Node × List Warning) →
    List Node × List Warning
  | .ok pr => pr
  | .error _ => ([], [])

/-- The resolved sidebar of the site configuration over the
named-path document subset siteDocs. -/
def siteRes : List Node := (okParts (resolve siteConfig siteDocs)).1

/-- The warnings of the site resolution over the named-path document
subset siteDocs: one empty-autogenerate warning per directive matching
zero documents of that subset. -/
def siteWs : List Warning := (okParts (resolve siteConfig siteDocs)).2

example : resolve siteConfig siteDocs = .ok (siteRes, siteWs) := by rfl

/-- A content document of the repository whose file path is not
recorded.  Its frontmatter (title, sidebar.order 9) is embedded
verbatim; its directory is javascript/gotchas, determined by the title
naming the configuration's Gotchas section, the only gotchas directive.
The final path segment is a placeholder: no theorem depends on it, only
on the directory. -/
def gotchasDoc : ContentDocument :=
  ⟨["javascript", "gotchas", "unknown.md"],
    "JavaScript Gotchas: The Weird Parts", some 9, none⟩

/-- A content document of the repository whose file path is not
recorded.  Its frontmatter (title, no sidebar.order) is embedded
verbatim; its directory is typescript/coding-interviews, determined by
the exact parallel with the JavaScript and Node.js interview handbooks
that live at javascript/coding-interviews and nodejs/coding-interviews,
likewise without order.  The final path segment is a placeholder: no
theorem depends on it, only on the directory. -/
def tsHandbookDoc : ContentDocument :=
  ⟨["typescript", "coding-interviews", "unknown.md"],
    "TypeScript Coding Interview Handbook", none, none⟩

/-- The named-path documents together with the two documents above; a
closer approximation of the repository's full content (which holds yet
further documents, all in the eight configured directories). -/
def siteDocsFull : List ContentDocument :=
  siteDocs ++ [gotchasDoc, tsHandbookDoc]

/-- Spec scenario for order fidelity: documents with orders 3, 1, 2 and
titles C, A, B under one directory. -/
def exampleDocsC1 : List ContentDocument :=
  [ ⟨["d", "c.md"], "C", some 3, none⟩,
    ⟨["d", "a.md"], "A", some 1, none⟩,
    ⟨["d", "b.md"], "B", some 2, none⟩ ]

/-- Spec scenario for the missing-order fallback: a mix of ordered and
unordered documents under one directory. -/
def exampleDocsMixed : List ContentDocument :=
  [ ⟨["d", "z.md"], "Z", none, none⟩,
    ⟨["d", "b.md"], "B", some 2, none⟩,
    ⟨["d", "y.md"], "Y", none, none⟩,
    ⟨["d", "a.md"], "A", some 1, none⟩ ]

/-- A configuration whose two top-level sections share a label. -/
def exampleConfigDup : List Node :=
  [Node.group "A" false [], Node.group "A" true []]

/-- C1: each autogenerate expansion sorts the collected documents with
primary key order ascending (missing order after all present orders) and
secondary key path lexicographic order, so equal-order documents are
placed by path comparison; over documents with orders 3, 1, 2 and titles
C, A, B the entries come out A, B, C, and in the repository's
javascript/notes directory the two order-6 documents are placed by path,
objects-references before the-dom. -/
theorem c1_order_fidelity :
    (∀ (dirs : List (List String)) (dir : List String)
        (docs : List ContentDocument),
      List.Sorted DocLe (collectDocs dirs dir docs) ∧
      (collectDocs dirs dir docs).Perm
        (docs.filter (claimedBy dirs dir))) ∧
    (expandAutogen [["d"]] ["d"] exampleDocsC1).1 =
      [ Node.entry "A" ["d", "a.md"] true,
        Node.entry "B" ["d", "b.md"] true,
        Node.entry "C" ["d", "c.md"] true ] ∧
    (collectDocs siteDirs ["javascript", "notes"] siteDocs).map
        ContentDocument.title =
      [ "The JavaScript Ecosystem and Variables",
        "Operators, Logic, and Control Flow",
        "Data Structures and Manipulation",
        "Objects, References, and The `this` Keyword",
        "The DOM (Document Object Model)",
        "Arrays and The Iteration Protocols",
        "Asynchronous JavaScript",
        "Prototypes and The Prototype Chain",
        "\"Under the Hood\" and Tooling",
        "DOM Manipulation and Performance",
        "Event Architecture and Delegation",
        "Promises, Fetch and Chaining",
        "Modules (ESM) and Bundling",
        "Performance and Memory Management" ] := by
  refine ⟨fun dirs dir docs =>
    ⟨collectDocs_sorted dirs dir docs, collectDocs_perm dirs dir docs⟩,
    by rfl, by decide⟩

/-- C2: on success, sibling order in the resolved tree equals declaration
order of the configuration everywhere except inside expanded directive
subtrees: every configuration node contributes its slice (a single entry,
a single equally-labelled group with recursively related children, or the
directive's expansion) spliced exactly at the position the node occupied
among its siblings. -/
theorem c2_splice_order (config : List Node)
    (docs : List ContentDocument) (res : List Node) (ws : List Warning)
    (h : resolve config docs = .ok (res, ws)) :
    ItemsRes (itemsDirs config) docs config res :=
  resolve_itemsRes config docs res ws h

theorem c2_witness :
    ItemsRes (itemsDirs siteConfig) siteDocs siteConfig siteRes :=
  c2_splice_order siteConfig siteDocs siteRes siteWs (by rfl)

/-- C3: on success, the resolved tree contains no autogenerate directive
node and every entry's target refers to a document present in the
supplied document set. -/
theorem c3_fully_resolved (config : List Node)
    (docs : List ContentDocument) (res : List Node) (ws : List Warning)
    (h : resolve config docs = .ok (res, ws)) :
    itemsNoAuto res = true ∧ itemsOk docs res = true :=
  have hok := resolve_itemsOk config docs res ws h
  ⟨itemsOk_noAuto res docs hok, hok⟩

theorem c3_witness :
    itemsNoAuto siteRes = true ∧ itemsOk siteDocs siteRes = true :=
  c3_fully_resolved siteConfig siteDocs siteRes siteWs (by rfl)

/-- C4: on success over a path-deduplicated document set, every document
matching some directive's directory appears exactly once as an
autogenerated entry of the output, and any directive claiming it is the
most specific matching one: every matching directory is a prefix of the
claiming directory. -/
theorem c4_exactly_once (config : List Node)
    (docs : List ContentDocument) (res : List Node) (ws : List Warning)
    (d : ContentDocument) (h : resolve config docs = .ok (res, ws))
    (hn : (docs.map ContentDocument.path).Nodup) (hd : d ∈ docs)
    (hex : ∃ dir ∈ itemsDirs config, dir <+: d.path) :
    itemsAutoCount d.path res = 1 ∧
    ∀ dir ∈ itemsDirs config,
      claimsPath (itemsDirs config) docs dir d.path = true →
        ∀ y ∈ itemsDirs config, y <+: d.path → y <+: dir :=
  ⟨resolve_claims_once config docs res ws d h hn hd hex,
   fun _ hdir hcp => claiming_dir_maximal hdir hcp⟩

theorem c4_witness :
    itemsAutoCount ["javascript", "notes", "the-dom.md"] siteRes = 1 := by
  have h := c4_exactly_once siteConfig siteDocs siteRes siteWs
    ⟨["javascript", "notes", "the-dom.md"],
      "The DOM (Document Object Model)", some 6, none⟩
    (by rfl) (by decide) (by decide)
    ⟨["javascript", "notes"], by decide, by decide⟩
  exact h.1

/-- C5: each autogenerate expansion places every document carrying an
order before every document lacking one, the ordered ones ascending by
order, the unordered ones sorted by path; over a mixed example with
orders 2, none, none, 1 the entries come out ordered 1, 2 and then the
unordered ones by path. -/
theorem c5_missing_order_fallback :
    (∀ (dirs : List (List String)) (dir : List String)
        (docs : List ContentDocument),
      ((collectDocs dirs dir docs).Pairwise fun a b =>
        a.order = none → b.order = none) ∧
      (((collectDocs dirs dir docs).filter fun d =>
          d.order.isSome).Pairwise fun a b =>
        ∀ i j, a.order = some i → b.order = some j → i ≤ j) ∧
      (((collectDocs dirs dir docs).filter fun d =>
          d.order.isNone).Pairwise fun a b =>
        pathLe a.path b.path = true)) ∧
    (expandAutogen [["d"]] ["d"] exampleDocsMixed).1 =
      [ Node.entry "A" ["d", "a.md"] true,
        Node.entry "B" ["d", "b.md"] true,
        Node.entry "Y" ["d", "y.md"] true,
        Node.entry "Z" ["d", "z.md"] true ] := by
  constructor
  · intro dirs dir docs
    have hs : (collectDocs dirs dir docs).Pairwise DocLe :=
      collectDocs_sorted dirs dir docs
    refine ⟨hs.imp ?_, (hs.filter _).imp ?_, ?_⟩
    · exact fun h ha => docLe_none_mono h ha
    · exact fun h i j ha hb => docLe_some_le h ha hb
    · refine List.Pairwise.imp_of_mem ?_ (hs.filter _)
      intro a b ha hb hab
      have ha2 := (List.mem_filter.mp ha).2
      have hb2 := (List.mem_filter.mp hb).2
      rw [Option.isNone_iff_eq_none] at ha2 hb2
      exact docLe_none_pathLe hab ha2 hb2
  · rfl

/-- C6: resolution is permutation-invariant in the document list: for a
fixed configuration and a path-deduplicated document set, any two
orderings of the documents resolve to identical results, trees, warnings
and errors alike. -/
theorem c6_determinism (config : List Node)
    {docs1 docs2 : List ContentDocument} (hp : docs1.Perm docs2)
    (hn : (docs1.map ContentDocument.path).Nodup) :
    resolve config docs1 = resolve config docs2 :=
  resolve_perm config hp hn

theorem c6_witness :
    resolve siteConfig siteDocs = resolve siteConfig siteDocs.reverse :=
  c6_determinism siteConfig (List.reverse_perm siteDocs).symm (by decide)

/-- C7 (amended): a labelled group holding an autogenerate directive
that claims zero documents of the supplied set resolves without failing:
it yields the group with no children plus an empty-autogenerate warning,
spliced at its position, and the remaining siblings are resolved
normally.  The javascript/gotchas and typescript/coding-interviews
directives of the site configuration are not instances of this over the
repository's full content, which contains documents for both
directories (see the counterexample below); they claim zero documents
only over the named-path subset siteDocs. -/
theorem c7_empty_directive (dirs : List (List String))
    (docs : List ContentDocument) (path : List Nat) (i : Nat)
    (dir : List String) (l : String) (c : Bool) (rest : List Node)
    (hz : docs.filter (claimedBy dirs dir) = []) :
    resolveNode dirs docs path i (.group l c [.autogen dir]) =
      .ok ([.group l c []], [.emptyAutogenerate dir]) ∧
    resolveItems dirs docs path i (.group l c [.autogen dir] :: rest) =
      (resolveItems dirs docs path (i + 1) rest).map fun pr =>
        (Node.group l c [] :: pr.1,
          Warning.emptyAutogenerate dir :: pr.2) :=
  ⟨resolveNode_empty_autogen dirs docs path i l c hz,
   resolveItems_empty_autogen dirs docs path i l c rest hz⟩

theorem c7_witness :
    resolveItems [["e"]] exampleDocsC1 [] 0
      [Node.group "Empty" true [Node.autogen ["e"]]] =
    Except.ok ([Node.group "Empty" true []],
      [Warning.emptyAutogenerate ["e"]]) := by
  have h := c7_empty_directive [["e"]] exampleDocsC1 [] 0
    ["e"] "Empty" true [] (by rfl)
  rw [h.2]
  rfl

/-- C7 counterexample: against the repository's content, the
javascript/gotchas and typescript/coding-interviews directives match
documents — the gotchas survival guide and the TypeScript interview
handbook — so the claim's premise that they match zero documents of
this repository does not hold; it holds only of the named-path subset. -/
theorem c7_counterexample :
    siteDocsFull.filter
      (claimedBy siteDirs ["javascript", "gotchas"]) = [gotchasDoc] ∧
    siteDocsFull.filter
      (claimedBy siteDirs ["typescript", "coding-interviews"]) =
      [tsHandbookDoc] ∧
    siteWs =
      [ Warning.emptyAutogenerate ["javascript", "gotchas"],
        Warning.emptyAutogenerate ["typescript", "coding-interviews"] ] :=
  ⟨by decide, by decide, by rfl⟩

/-- C8: an explicit entry whose target matches no document resolves to a
fatal broken-reference error carrying the entry's label and target; a
configuration containing such an entry anywhere never yields a resolved
tree; an explicit entry whose target exists is copied through. -/
theorem c8_broken_reference :
    (∀ (dirs : List (List String)) (docs : List ContentDocument)
        (path : List Nat) (i : Nat) (l : String) (t : List String)
        (a : Bool), docs.all (fun d => d.path ≠ t) = true →
      resolveNode dirs docs path i (.entry l t a) =
        .error (.brokenReference l t)) ∧
    (∀ (config : List Node) (docs : List ContentDocument),
      itemsDangling docs config = true →
        ∃ e, resolve config docs = .error e) ∧
    (∀ (dirs : List (List String)) (docs : List ContentDocument)
        (path : List Nat) (i : Nat) (l : String) (t : List String)
        (a : Bool), (docs.any fun d => d.path = t) = true →
      resolveNode dirs docs path i (.entry l t a) =
        .ok ([.entry l t false], [])) :=
  ⟨fun dirs docs path i l _ a hmiss =>
      resolveNode_broken dirs docs path i l a hmiss,
   fun config docs h => resolve_fails_of_dangling config docs h,
   fun dirs docs path i l _ a hfound =>
      resolveNode_entry_found dirs docs path i l a hfound⟩

theorem c8_witness :
    resolveNode [] exampleDocsC1 [] 0 (.entry "Broken" ["nope"] false) =
      .error (.brokenReference "Broken" ["nope"]) ∧
    resolveNode [] exampleDocsC1 [] 0 (.entry "Fine" ["d", "a.md"] false) =
      .ok ([.entry "Fine" ["d", "a.md"] false], []) :=
  ⟨c8_broken_reference.1 [] exampleDocsC1 [] 0 "Broken" ["nope"] false
      (by decide),
   c8_broken_reference.2.2 [] exampleDocsC1 [] 0 "Fine" ["d", "a.md"]
      false (by decide)⟩

/-- C9: sibling group label uniqueness is a precondition of every
successful resolution, and a sibling list with two groups sharing a label
fails with a duplicate-label error reporting both offending index paths,
both at the top level and below any parent group. -/
theorem c9_duplicate_labels :
    (∀ (config : List Node) (docs : List ContentDocument)
        (res : List Node) (ws : List Warning),
      resolve config docs = .ok (res, ws) →
        configLabelsUnique config = true) ∧
    (∀ (config : List Node) (docs : List ContentDocument),
      SharesLabel config →
        ∃ i j, resolve config docs = .error (.duplicateLabel [i] [j])) ∧
    (∀ (dirs : List (List String)) (docs : List ContentDocument)
        (path : List Nat) (k : Nat) (l : String) (c : Bool)
        (items : List Node), SharesLabel items →
        ∃ i j, resolveNode dirs docs path k (.group l c items) =
          .error (.duplicateLabel (path ++ [k] ++ [i])
            (path ++ [k] ++ [j]))) := by
  refine ⟨fun config docs res ws h =>
    resolve_labelsUnique config docs res ws h, ?_, ?_⟩
  · intro config docs hs
    cases hdup : firstDup config with
    | none => exact absurd hdup (sharesLabel_firstDup_ne_none hs)
    | some p =>
      refine ⟨p.1, p.2, ?_⟩
      unfold resolve
      rw [hdup]
  · intro dirs docs path k l c items hs
    cases hdup : firstDup items with
    | none => exact absurd hdup (sharesLabel_firstDup_ne_none hs)
    | some p =>
      refine ⟨p.1, p.2, ?_⟩
      simp only [resolveNode]
      rw [hdup]

theorem c9_witness :
    ∃ i j, resolve exampleConfigDup [] =
      .error (.duplicateLabel [i] [j]) :=
  c9_duplicate_labels.2.1 exampleConfigDup []
    ⟨[], [], [], "A", false, [], true, [], rfl⟩

/-- C10: the eight autogenerate directories of the configuration are
pairwise disjoint, no one a segment prefix of another, so at most one
directive matches any path, and resolution of this configuration never
fails with an ambiguous-claim error whatever the document set. -/
theorem c10_disjoint_directives :
    (siteDirs.Pairwise fun d1 d2 => ¬ d1 <+: d2 ∧ ¬ d2 <+: d1) ∧
    (∀ p : List String,
      siteDirs.countP (fun dir => dir.isPrefixOf p) ≤ 1) ∧
    (∀ (docs : List ContentDocument) (dir : List String),
      resolve siteConfig docs ≠ .error (.ambiguousClaim dir)) := by
  have hpair : siteDirs.Pairwise
      fun d1 d2 => ¬ d1 <+: d2 ∧ ¬ d2 <+: d1 := by decide
  refine ⟨hpair, ?_, ?_⟩
  · intro p
    by_contra hgt
    have h2 : 2 ≤ siteDirs.countP (fun dir => dir.isPrefixOf p) := by
      omega
    obtain ⟨a, ha, b, hb, hab, hfa, hfb⟩ :=
      countP_two_distinct (by decide) h2
    have hpa := isPrefixOf_iff.mp hfa
    have hpb := isPrefixOf_iff.mp hfb
    have hR := List.Pairwise.forall
      (fun x y hxy => ⟨hxy.2, hxy.1⟩) hpair ha hb hab
    rcases List.prefix_or_prefix_of_prefix hpa hpb with h | h
    · exact hR.1 h
    · exact hR.2 h
  · intro docs dir h
    exact resolve_no_ambiguous siteConfig docs (by decide) _ h dir rfl

theorem c10_witness :
    ¬ (resolve siteConfig siteDocs =
      .error (.ambiguousClaim ["javascript", "notes"])) :=
  c10_disjoint_directives.2.2 siteDocs ["javascript", "notes"]

theorem c1_witness :
    List.Sorted DocLe (collectDocs [["d"]] ["d"] exampleDocsC1) ∧
    (collectDocs [["d"]] ["d"] exampleDocsC1).Perm
      (exampleDocsC1.filter (claimedBy [["d"]] ["d"])) :=
  c1_order_fidelity.1 [["d"]] ["d"] exampleDocsC1

theorem c5_witness :
    (collectDocs [["d"]] ["d"] exampleDocsMixed).Pairwise
      (fun a b => a.order = none → b.order = none) :=
  (c5_missing_order_fallback.1 [["d"]] ["d"] exampleDocsMixed).1
